import Mathlib

/-!
# Verification of the popcorn-api `ShowController`

A shallow embedding, in Lean 4, of `src/controllers/ShowController.js`
from the `popcorn-api` repository, together with proofs about the
behaviour of its four request handlers (`getShows`, `getPage`,
`getShow`, `getRandomShow`).

Modelling conventions:
* JavaScript strings are modelled as `List Char` (abbreviated `Str`).
* The MongoDB show collection is modelled as a `List ShowDoc`; a store
  operation either yields the collection (`Except.ok`) or fails
  (`Except.error`), modelling a rejected Mongoose promise.
* Express handler behaviour is reified into an `Outcome`: the handler
  either serialises a value (`res.json`), forwards an error to the
  error-handling middleware (`next(err)`), or itself throws a
  `TypeError` for calling a method that does not exist on the response
  object (see `getPage`, whose catch handler calls `res.jfson`).
* MongoDB's `$sort` is modelled as a deterministic (stable) insertion
  sort with a lexicographic comparison over the sort-specification
  keys, `$sample` is modelled by an explicit choice oracle, and the
  regular expression built for keyword search is modelled by a small
  regex AST (`RE`) whose constructs are exactly the ones appearing in
  the generated pattern, with an executable matcher (`REends`).
-/

namespace Popcorn

/-- JavaScript strings are modelled as lists of characters. -/
abbrev Str := List Char

/-- ASCII alphanumeric test: the characters kept by the sanitizer
`replace(/[^a-zA-Z0-9]/g, '')` in `getPage`. -/
def isAsciiAlnum (c : Char) : Bool :=
  (decide ('a' ≤ c) && decide (c ≤ 'z')) ||
  (decide ('A' ≤ c) && decide (c ≤ 'Z')) ||
  (decide ('0' ≤ c) && decide (c ≤ '9'))

/-- JavaScript regex word character (`\w`, as used by the `\b` word
boundary): ASCII alphanumerics and the underscore. -/
def isWordChar (c : Char) : Bool :=
  isAsciiAlnum c || decide (c = '_')

/-- JavaScript regex whitespace (`\s`), restricted to the ASCII range
(all inputs of interest to the controller are ASCII). -/
def isSpaceChar (c : Char) : Bool :=
  decide (c = ' ') || decide (c = '\t') || decide (c = '\n') ||
  decide (c = '\r') || decide (c = '\x0b') || decide (c = '\x0c')

/-- JavaScript split with a space separator: split at every occurrence of the
space character, keeping empty pieces (so `""` yields `[""]`). -/
def splitOnSpace : Str → List Str
  | [] => [[]]
  | c :: rest =>
    let r := splitOnSpace rest
    if c = ' ' then [] :: r
    else
      match r with
      | [] => [[c]]
      | w :: ws => (c :: w) :: ws

/-- Numeric parse of an all-digit page parameter: `parseDigits`
returns `some n` exactly when the string is a nonempty run of decimal
digits.  Other strings produce a non-integral or `NaN` offset, which
the MongoDB `$skip` stage rejects; the embedding funnels those into
the same failed-aggregation outcome as a negative offset. -/
def parseDigitsAux : Nat → Str → Option Nat
  | acc, [] => some acc
  | acc, c :: cs =>
    if c.isDigit then parseDigitsAux (acc * 10 + (c.toNat - 48)) cs else none

/-- Parse a nonempty run of decimal digits (see `parseDigitsAux`). -/
def parseDigits (s : Str) : Option Nat :=
  match s with
  | [] => none
  | _ :: _ => parseDigitsAux 0 s

/-- One token of a literal JavaScript regex as used in the controller's
`String.prototype.match` calls: a literal character (compared
case-insensitively, all the controller's patterns use the `i` flag) or
the character class `[-\s]` appearing in the science-fiction
canonicalisation patterns. -/
inductive PatTok where
  | lit (c : Char)
  | sep
deriving DecidableEq, Repr

/-- Whether a pattern token matches one subject character.  Literal
pattern characters are stored lower-cased; the `i` flag is modelled by
lower-casing the subject character before comparison. -/
def tokMatches : PatTok → Char → Bool
  | .lit c, d => decide (c = d.toLower)
  | .sep, d => decide (d = '-') || isSpaceChar d

/-- The pattern matches a prefix of the subject. -/
def toksMatchHere : List PatTok → Str → Bool
  | [], _ => true
  | _ :: _, [] => false
  | t :: ts, c :: cs => tokMatches t c && toksMatchHere ts cs

/-- The pattern matches at some position of the subject (JavaScript
`String.prototype.match` truthiness for an unanchored pattern). -/
def containsToks (p : List PatTok) : Str → Bool
  | [] => toksMatchHere p []
  | c :: rest => toksMatchHere p (c :: rest) || containsToks p rest

/-- Literal pattern tokens for a (lower-case) pattern string. -/
def litToks (w : Str) : List PatTok := w.map .lit

/-- Truthiness of `s.match(/pat/i)` for a literal pattern `pat`
(given lower-cased): the pattern occurs case-insensitively as a
substring of `s`. -/
def jsTest (pat : String) (s : Str) : Bool :=
  containsToks (litToks pat.toList) s

/-- The pattern `/science[-\s]fiction/i` from `getPage`. -/
def sciFiLong : List PatTok :=
  litToks "science".toList ++ [.sep] ++ litToks "fiction".toList

/-- The pattern `/sci[-\s]fi/i` from `getPage`. -/
def sciFiShort : List PatTok :=
  litToks "sci".toList ++ [.sep] ++ litToks "fi".toList

/-! ## The keyword-search regular expression

`getPage` builds, from the sanitised keyword tokens `w1 … wn`, the
JavaScript pattern `^(?=.*\bw1\b)…(?=.*\bwn\b).*` with flags `gi`.
The AST below has exactly the constructs appearing in that pattern;
`REends` is an executable matcher returning every position at which a
match starting at the given position can end (the `i` flag is modelled
inside `RE.lit`, and the leading `^` anchor by only running the
matcher from position 0). -/

/-- Regex AST for the constructs used by the generated pattern. -/
inductive RE where
  | eps
  | lit (c : Char)
  | dotStar
  | wordB
  | look (r : RE)
  | seq (a b : RE)
deriving Repr

/-- Whether the character of `s` at position `i` is a word character
(positions outside `s` are not). -/
def wordAt (s : Str) (i : Nat) : Bool :=
  match s[i]? with
  | some c => isWordChar c
  | none => false

/-- JavaScript `\b` holds at position `i` of `s`: exactly one of the
two neighbouring positions carries a word character. -/
def wordBoundary (s : Str) (i : Nat) : Bool :=
  ((decide (i ≠ 0)) && wordAt s (i - 1)) != wordAt s i

/-- No newline occurs in `s` at positions `i ≤ k < j` (the characters
`.` may step over). -/
def noNL (s : Str) (i j : Nat) : Bool :=
  ((s.drop i).take (j - i)).all fun c => decide (c ≠ '\n')

/-- All end positions of a match of the regex starting at position `i`
of subject `s`. -/
def REends (s : Str) : RE → Nat → List Nat
  | .eps, i => [i]
  | .lit c, i =>
    match s[i]? with
    | some d => if c.toLower = d.toLower then [i + 1] else []
    | none => []
  | .dotStar, i =>
    (List.range (s.length + 1)).filter fun j => decide (i ≤ j) && noNL s i j
  | .wordB, i => if wordBoundary s i then [i] else []
  | .look r, i => if REends s r i = [] then [] else [i]
  | .seq a b, i => (REends s a i).flatMap (REends s b)

/-- The anchored pattern accepts `s` (matching from position 0, as the
generated pattern starts with `^`). -/
def reAccepts (r : RE) (s : Str) : Bool := decide (REends s r 0 ≠ [])

/-- Literal-character sequence regex for a token. -/
def lits : Str → RE
  | [] => .eps
  | c :: cs => .seq (.lit c) (lits cs)

/-- The lookahead `(?=.*\bw\b)` the loop in `getPage` appends for one
sanitised keyword token `w`. -/
def lookWord (w : Str) : RE :=
  .look (.seq .dotStar (.seq .wordB (.seq (lits w) .wordB)))

/-- The full generated pattern `^(?=.*\bw1\b)…(?=.*\bwn\b).*` (the
leading `^` is modelled by `reAccepts` matching from position 0). -/
def keywordRE (ws : List Str) : RE :=
  ws.foldr (fun w acc => .seq (lookWord w) acc) .dotStar

/-- Sanitise one keyword token exactly as the loop in `getPage` does:
`replace(/[^a-zA-Z0-9]/g, '')` followed by `toLowerCase()`
(`RegExp.escape` is the identity on the resulting alphanumeric
strings, since escaping only prefixes non-alphanumeric characters
with a backslash). -/
def sanitizeWord (w : Str) : Str :=
  (w.filter isAsciiAlnum).map Char.toLower

/-- The sanitised tokens of a keyword input: `split(' ')`, then
per-token sanitisation. -/
def keywordWords (kw : Str) : List Str :=
  (splitOnSpace kw).map sanitizeWord

/-- Whether `w` matches `s` at position `i`, comparing
case-insensitively. -/
def ciMatchAt (s : Str) : Str → Nat → Bool
  | [], _ => true
  | c :: cs, i =>
    (match s[i]? with
     | some d => decide (c.toLower = d.toLower)
     | none => false) && ciMatchAt s cs (i + 1)

/-- Whether `s` contains `w` as a whole word, case-insensitively: at some
position, `w` occurs with a word boundary on each side.  This is the
specification-side reading of "contains the token as a whole word". -/
def containsWholeWordCI (s w : Str) : Bool :=
  (List.range (s.length + 1)).any fun i =>
    wordBoundary s i && ciMatchAt s w i && wordBoundary s (i + w.length)

/-! ## Data model -/

/-- The `rating` sub-document of a show. -/
structure Rating where
  votes : Int
  percentage : Int
  watching : Int
deriving DecidableEq, Repr

/-- A show document as persisted in the MongoDB collection, with the
fields the controller reads.  `latest_episode` is the internal
timestamp/ordinal used only for "recently updated" ordering. -/
structure ShowDoc where
  _id : String
  imdb_id : String
  tvdb_id : String
  title : Str
  year : Int
  slug : String
  genres : List Str
  images : List String
  rating : Rating
  num_seasons : Int
  latest_episode : Int
deriving DecidableEq, Repr

/-- A show document after projection: both `ShowController._projections`
(an inclusion projection listing every catalog-facing field) and the
`{latest_episode: 0}` exclusion projection of `getShow` keep exactly
the fields below — everything except `latest_episode`. -/
structure ProjDoc where
  _id : String
  imdb_id : String
  tvdb_id : String
  title : Str
  year : Int
  slug : String
  genres : List Str
  images : List String
  rating : Rating
  num_seasons : Int
deriving DecidableEq, Repr

/-- Application of the controller's projection to one document. -/
def projectDoc (e : ShowDoc) : ProjDoc :=
  { _id := e._id, imdb_id := e.imdb_id, tvdb_id := e.tvdb_id,
    title := e.title, year := e.year, slug := e.slug,
    genres := e.genres, images := e.images, rating := e.rating,
    num_seasons := e.num_seasons }

/-- The shape of the MongoDB query objects `getPage` builds: the
standing `num_seasons: {$gt: n}` condition, an optional `$regex`
constraint on `title` (represented by the sanitised keyword tokens the
pattern was built from), and an optional equality constraint on
`genres`. -/
structure MongoQuery where
  numSeasonsGt : Option Int
  titleWords : Option (List Str)
  genresVal : Option Str
deriving DecidableEq, Repr

/-- The static object `ShowController.query`, `{num_seasons: {$gt: 0}}`,
used by every listing query. -/
def showQuery : MongoQuery :=
  { numSeasonsGt := some 0, titleWords := none, genresVal := none }

/-- Semantics of the `$match` stage for a query object against one
document.  An
equality condition on the array field `genres` matches when the array
contains the value; the `title` regex condition is the anchored
keyword pattern run by `reAccepts`. -/
def matchesQuery (q : MongoQuery) (e : ShowDoc) : Bool :=
  (match q.numSeasonsGt with
   | none => true
   | some n => decide (n < e.num_seasons)) &&
  (match q.titleWords with
   | none => true
   | some ws => reAccepts (keywordRE ws) e.title) &&
  (match q.genresVal with
   | none => true
   | some g => e.genres.contains g)

/-! ## Sort specifications -/

/-- The document paths that occur as `$sort` keys in `getPage`. -/
inductive SortField where
  | ratingVotes
  | ratingPercentage
  | ratingWatching
  | title
  | latestEpisode
  | year
deriving DecidableEq, Repr

/-- Value of a sort key in one document. -/
inductive SortVal where
  | int (n : Int)
  | str (s : Str)
deriving DecidableEq, Repr

/-- Read a sort-key value from a document. -/
def fieldVal : SortField → ShowDoc → SortVal
  | .ratingVotes, e => .int e.rating.votes
  | .ratingPercentage, e => .int e.rating.percentage
  | .ratingWatching, e => .int e.rating.watching
  | .title, e => .str e.title
  | .latestEpisode, e => .int e.latest_episode
  | .year, e => .int e.year

/-- Lexicographic (by character code) comparison of strings, the
ordering MongoDB uses for string sort keys. -/
def strLeB : Str → Str → Bool
  | [], _ => true
  | _ :: _, [] => false
  | a :: as, b :: bs =>
    if a.toNat < b.toNat then true
    else if b.toNat < a.toNat then false
    else strLeB as bs

/-- Comparison of sort-key values.  Within this model every sort key is
consistently typed across documents, so the cross-type cases are never
exercised by ties; they are fixed arbitrarily (numbers before
strings, following the BSON type order). -/
def valLeB : SortVal → SortVal → Bool
  | .int a, .int b => decide (a ≤ b)
  | .int _, .str _ => true
  | .str _, .int _ => false
  | .str a, .str b => strLeB a b

/-- Direction-adjusted key comparison: ascending for a non-negative
direction, reversed for a negative one (MongoDB's `-1`). -/
def dirLe (d : Int) (x y : SortVal) : Bool :=
  if d < 0 then valLeB y x else valLeB x y

/-- The `$sort` comparison for a sort specification (an ordered list of
key/direction pairs, direction `-1` meaning descending): documents are
compared lexicographically over the keys. -/
def sortLeB : List (SortField × Int) → ShowDoc → ShowDoc → Bool
  | [], _, _ => true
  | (f, d) :: rest, a, b =>
    dirLe d (fieldVal f a) (fieldVal f b) &&
    (!(dirLe d (fieldVal f b) (fieldVal f a)) || sortLeB rest a b)

/-- The `$sort` comparison as a relation, for `List.insertionSort`
(the deterministic model of MongoDB's `$sort`). -/
def sortRel (spec : List (SortField × Int)) (a b : ShowDoc) : Prop :=
  sortLeB spec a b = true

instance (spec : List (SortField × Int)) : DecidableRel (sortRel spec) :=
  fun a b => by unfold sortRel; infer_instance

/-- Descending-title comparison on projected documents: the
`$sort {title: -1}` stage of the full-listing mode, which in the code
runs after the `$project` stage. -/
def titleDescRel (a b : ProjDoc) : Prop :=
  strLeB b.title a.title = true

instance : DecidableRel titleDescRel :=
  fun a b => by unfold titleDescRel; infer_instance

/-- The line `data.order = data.order ? parseInt(data.order, 10) : -1`: the
direction parameter, defaulting to descending. -/
def effOrder (order? : Option Int) : Int := order?.getD (-1)

/-- The `$sort` specification `getPage` builds: the default triple of
rating keys, sequentially overridden by the (case-insensitive,
substring-tested) `sort` request parameter. -/
def buildSort (sortParam : Option Str) (d : Int) : List (SortField × Int) :=
  let s0 := [(SortField.ratingVotes, d), (SortField.ratingPercentage, d),
             (SortField.ratingWatching, d)]
  match sortParam with
  | none => s0
  | some sp =>
    let s1 := if jsTest "name" sp then [(SortField.title, d)] else s0
    let s2 := if jsTest "rating" sp then
        [(SortField.ratingPercentage, d), (SortField.ratingVotes, d)] else s1
    let s3 := if jsTest "trending" sp then [(SortField.ratingWatching, d)] else s2
    let s4 := if jsTest "updated" sp then [(SortField.latestEpisode, d)] else s3
    if jsTest "year" sp then [(SortField.year, d)] else s4

/-! ## The request handlers -/

/-- What a handler does with its request: serialise a value
(`res.json(v)`), forward an error to the Express error middleware
(`next(err)`), or itself raise a `TypeError` by invoking a method that
does not exist on the response object. -/
inductive Outcome (α : Type) where
  | json (v : α)
  | nextErr (e : String)
  | methodCrash (method : String)
deriving DecidableEq, Repr

/-- The request query parameters `getPage` reads (`req.query`).
`none` models an absent (or empty, hence falsy) parameter. -/
structure PageParams where
  order : Option Int := none
  keywords : Option Str := none
  sortField : Option Str := none
  genre : Option Str := none
deriving DecidableEq, Repr

/-- The query object `getPage` builds for a numeric page: a copy of
`ShowController.query`, plus the keyword `$regex` constraint on
`title` and the genre constraint, the latter with the
science-fiction canonicalisation hack. -/
def buildPageQuery (ps : PageParams) : MongoQuery :=
  let q1 :=
    match ps.keywords with
    | none => showQuery
    | some kw => { showQuery with titleWords := some (keywordWords kw) }
  match ps.genre with
  | none => q1
  | some g =>
    if jsTest "all" g then q1
    else
      let g2 := if containsToks sciFiLong g || containsToks sciFiShort g then
          "science-fiction".toList else g
      { q1 with genresVal := some (g2.map Char.toLower) }

/-- The store as seen by one handler invocation: either the collection
contents, or a failed (rejected) store operation. -/
abbrev Store := Except String (List ShowDoc)

/-- Handler `getShows`: count the documents matching `ShowController.query`
and return the page identifiers `"shows/1" … "shows/⌈count/pageSize⌉"`
(`Math.ceil` on naturals, for a positive page size, is
`(count + pageSize - 1) / pageSize`). -/
def getShows (store : Store) (pageSize : Nat) : Outcome (List String) :=
  match store with
  | .error e => .nextErr e
  | .ok docs =>
    let count := (docs.filter (matchesQuery showQuery)).length
    let pages := (count + pageSize - 1) / pageSize
    .json ((List.range pages).map fun i => "shows/" ++ toString (i + 1))

/-- The full-listing aggregation of `getPage`:
`$match ShowController.query`, `$project ShowController._projections`,
`$sort {title: -1}`. -/
def allMode (docs : List ShowDoc) : List ProjDoc :=
  List.insertionSort titleDescRel
    ((docs.filter (matchesQuery showQuery)).map projectDoc)

/-- The numeric-page aggregation of `getPage`: `$sort`, `$match`,
`$project`, `$skip offset`, `$limit pageSize`. -/
def numericMode (docs : List ShowDoc) (ps : PageParams) (pageSize : Nat)
    (offset : Nat) : List ProjDoc :=
  let spec := buildSort ps.sortField (effOrder ps.order)
  let q := buildPageQuery ps
  ((((List.insertionSort (sortRel spec) docs).filter
      (matchesQuery q)).map projectDoc).drop offset).take pageSize

/-- Handler `getPage`.  The branch condition is the substring test
`req.params.page.match(/all/i)`.  On the numeric branch a failing
aggregation — a rejected store operation, or an offset MongoDB's
`$skip` rejects (negative, from a page index below 1, or non-integral
from an unparsable page string) — reaches the catch handler
`err => res.jfson(err)`, and `res` has no `jfson` method, so the
handler itself throws a `TypeError`. -/
def getPage (store : Store) (page : Str) (ps : PageParams)
    (pageSize : Nat) : Outcome (List ProjDoc) :=
  if jsTest "all" page then
    match store with
    | .error e => .nextErr e
    | .ok docs => .json (allMode docs)
  else
    match store with
    | .error _ => .methodCrash "jfson"
    | .ok docs =>
      match parseDigits page with
      | none => .methodCrash "jfson"
      | some i =>
        if ((i : Int) - 1) * pageSize < 0 then .methodCrash "jfson"
        else .json (numericMode docs ps pageSize
          (((i : Int) - 1) * pageSize).toNat)

/-- Handler `getShow`: `findOne({_id: id}, {latest_episode: 0})` — the first
document whose `_id` equals the requested id, with `latest_episode`
excluded, or `null` when there is none. -/
def getShow (store : Store) (i : String) : Outcome (Option ProjDoc) :=
  match store with
  | .error e => .nextErr e
  | .ok docs => .json ((docs.find? fun d => d._id = i).map projectDoc)

/-- Handler `getRandomShow`: `$sample {size: 1}` over the whole collection
(no `$match`, no `$project`), `$limit 1`, then `res.json(docs[0])`.
The random choice is modelled by the oracle `pick`; `docs[0]` of an
empty result is `undefined`, modelled as `none`. -/
def getRandomShow (store : Store) (pick : Nat) : Outcome (Option ShowDoc) :=
  match store with
  | .error e => .nextErr e
  | .ok docs =>
    let sampled := (docs[pick % docs.length]?).toList
    .json (sampled.take 1).head?

/-- The numeric-page pipeline in the order the specification states
it: apply the filters, apply the sort, skip `(index-1)*pageSize`,
limit `pageSize`, project.  Comparing `getPage` against this
definition is the content of the pipeline-order claim. -/
def specPagePipeline (docs : List ShowDoc) (ps : PageParams)
    (pageSize : Nat) (index : Nat) : List ProjDoc :=
  let spec := buildSort ps.sortField (effOrder ps.order)
  let q := buildPageQuery ps
  ((((docs.filter (matchesQuery q)).insertionSort
      (sortRel spec)).drop ((index - 1) * pageSize)).take pageSize).map
    projectDoc

/-- Sample documents used by the concrete witnesses. -/
def egShow : ShowDoc :=
  { _id := "1", imdb_id := "tt1", tvdb_id := "t1", title := "Wanted".toList,
    year := 2016, slug := "wanted", genres := ["drama".toList],
    images := [], rating := { votes := 10, percentage := 80, watching := 3 },
    num_seasons := 2, latest_episode := 100 }

/-- A document violating the standing `num_seasons > 0` invariant. -/
def egZero : ShowDoc :=
  { egShow with _id := "2", imdb_id := "tt2", num_seasons := 0 }

/-- Request parameters with every field absent. -/
def egParams : PageParams := {}

/-- Request parameters asking for a genre the sample show lacks. -/
def egComedy : PageParams := { genre := some "comedy".toList }

/-- Request parameters asking for the genre value of the word ballet,
which is not a genre of the sample show. -/
def egBallet : PageParams := { genre := some "ballet".toList }

/-! ## The sort comparisons are total preorders -/

theorem strLeB_total (a b : Str) : strLeB a b = true ∨ strLeB b a = true := by
  induction a generalizing b with
  | nil => left; rfl
  | cons c cs ih =>
    cases b with
    | nil => right; rfl
    | cons d ds =>
      by_cases h1 : c.toNat < d.toNat
      · left; simp [strLeB, h1]
      · by_cases h2 : d.toNat < c.toNat
        · right; simp [strLeB, h1, h2]
        · rcases ih ds with h | h
          · left; simp [strLeB, h1, h2, h]
          · right; simp [strLeB, h1, h2, h]

theorem strLeB_trans {a b c : Str} (h1 : strLeB a b = true)
    (h2 : strLeB b c = true) : strLeB a c = true := by
  induction a generalizing b c with
  | nil => rfl
  | cons x xs ih =>
    cases b with
    | nil => simp [strLeB] at h1
    | cons y ys =>
      cases c with
      | nil => simp [strLeB] at h2
      | cons z zs =>
        simp only [strLeB] at h1 h2 ⊢
        split_ifs at h1 h2 ⊢ <;>
          first
          | rfl
          | omega
          | exact ih h1 h2

theorem valLeB_total (x y : SortVal) : valLeB x y = true ∨ valLeB y x = true := by
  cases x <;> cases y <;> simp only [valLeB] <;>
    first
    | (left; trivial)
    | (right; trivial)
    | (simp only [decide_eq_true_eq]; omega)
    | exact strLeB_total ..

theorem valLeB_trans {x y z : SortVal} (h1 : valLeB x y = true)
    (h2 : valLeB y z = true) : valLeB x z = true := by
  cases x <;> cases y <;> cases z <;> simp_all [valLeB] <;>
    first
    | omega
    | exact strLeB_trans h1 h2

theorem dirLe_total (d : Int) (x y : SortVal) :
    dirLe d x y = true ∨ dirLe d y x = true := by
  unfold dirLe
  split
  · exact (valLeB_total x y).symm
  · exact valLeB_total x y

theorem dirLe_trans {d : Int} {x y z : SortVal} (h1 : dirLe d x y = true)
    (h2 : dirLe d y z = true) : dirLe d x z = true := by
  unfold dirLe at h1 h2 ⊢
  split at h1 <;> simp_all only [if_pos, if_neg] <;>
    first
    | exact valLeB_trans h2 h1
    | exact valLeB_trans h1 h2

theorem sortLeB_total :
    ∀ (spec : List (SortField × Int)) (a b : ShowDoc),
      sortLeB spec a b = true ∨ sortLeB spec b a = true
  | [], _, _ => Or.inl rfl
  | (f, d) :: rest, a, b => by
    have hv := dirLe_total d (fieldVal f a) (fieldVal f b)
    have ih := sortLeB_total rest a b
    simp only [sortLeB, Bool.and_eq_true, Bool.or_eq_true, Bool.not_eq_true']
    by_cases hab : dirLe d (fieldVal f a) (fieldVal f b) = true <;>
      by_cases hba : dirLe d (fieldVal f b) (fieldVal f a) = true <;>
      simp_all

theorem sortLeB_trans :
    ∀ (spec : List (SortField × Int)) (a b c : ShowDoc),
      sortLeB spec a b = true → sortLeB spec b c = true →
      sortLeB spec a c = true
  | [], _, _, _, _, _ => rfl
  | (f, d) :: rest, a, b, c, h1, h2 => by
    simp only [sortLeB, Bool.and_eq_true, Bool.or_eq_true,
      Bool.not_eq_true'] at h1 h2 ⊢
    obtain ⟨hab, h1r⟩ := h1
    obtain ⟨hbc, h2r⟩ := h2
    refine ⟨dirLe_trans hab hbc, ?_⟩
    rcases h1r with h1s | h1e
    · left
      cases hca : dirLe d (fieldVal f c) (fieldVal f a) with
      | false => rfl
      | true => exact absurd (dirLe_trans hbc hca) (by simp [h1s])
    · rcases h2r with h2s | h2e
      · left
        cases hca : dirLe d (fieldVal f c) (fieldVal f a) with
        | false => rfl
        | true => exact absurd (dirLe_trans hca hab) (by simp [h2s])
      · exact Or.inr (sortLeB_trans rest a b c h1e h2e)

instance (spec : List (SortField × Int)) : IsTotal ShowDoc (sortRel spec) :=
  ⟨fun a b => sortLeB_total spec a b⟩

instance (spec : List (SortField × Int)) : IsTrans ShowDoc (sortRel spec) :=
  ⟨fun _ _ _ h1 h2 => sortLeB_trans spec _ _ _ h1 h2⟩

instance : IsTotal ProjDoc titleDescRel :=
  ⟨fun a b => strLeB_total b.title a.title⟩

instance : IsTrans ProjDoc titleDescRel :=
  ⟨fun _ _ _ h1 h2 => strLeB_trans h2 h1⟩

/-! ## A stable sort commutes with filtering

MongoDB's `$sort` is modelled by the stable `List.insertionSort`; for
a stable sort, sorting then filtering agrees with filtering then
sorting, which is what lets the pipeline order of `getPage`
(`$sort` before `$match`) be compared with the specification's order
(filter before sort). -/

theorem orderedInsert_of_forall {α : Type} (r : α → α → Prop) [DecidableRel r]
    (a : α) : ∀ (l : List α), (∀ x ∈ l, r a x) →
      l.orderedInsert r a = a :: l
  | [], _ => rfl
  | b :: t, h => by
    rw [List.orderedInsert, if_pos (h b (List.mem_cons_self b t))]

theorem filter_orderedInsert {α : Type} (r : α → α → Prop) [DecidableRel r]
    [IsTrans α r] (p : α → Bool) (a : α) :
    ∀ (l : List α), l.Sorted r →
      (l.orderedInsert r a).filter p =
        if p a then (l.filter p).orderedInsert r a else l.filter p
  | [], _ => by
    by_cases hpa : p a = true <;> simp [List.orderedInsert, List.filter, hpa]
  | b :: t, hs => by
    by_cases hr : r a b
    · rw [List.orderedInsert, if_pos hr]
      by_cases hpa : p a = true
      · rw [if_pos hpa]
        have hall : ∀ x ∈ (b :: t).filter p, r a x := by
          intro x hx
          rcases List.mem_cons.mp (List.mem_of_mem_filter hx) with h | h
          · exact h ▸ hr
          · exact Trans.trans hr (List.rel_of_sorted_cons hs x h)
        rw [orderedInsert_of_forall r a _ hall, List.filter_cons_of_pos hpa]
      · rw [if_neg hpa, List.filter_cons_of_neg (Bool.not_eq_true _ ▸ hpa)]
    · rw [List.orderedInsert, if_neg hr]
      have ih := filter_orderedInsert r p a t (List.Sorted.of_cons hs)
      by_cases hpb : p b = true <;> by_cases hpa : p a = true
      · rw [List.filter_cons_of_pos hpb, ih, if_pos hpa, if_pos hpa,
          List.filter_cons_of_pos hpb, List.orderedInsert, if_neg hr]
      · rw [List.filter_cons_of_pos hpb, ih, if_neg hpa, if_neg hpa,
          List.filter_cons_of_pos hpb]
      · rw [List.filter_cons_of_neg (Bool.not_eq_true _ ▸ hpb), ih,
          if_pos hpa, if_pos hpa,
          List.filter_cons_of_neg (Bool.not_eq_true _ ▸ hpb)]
      · rw [List.filter_cons_of_neg (Bool.not_eq_true _ ▸ hpb), ih,
          if_neg hpa, if_neg hpa,
          List.filter_cons_of_neg (Bool.not_eq_true _ ▸ hpb)]

theorem filter_insertionSort {α : Type} (r : α → α → Prop) [DecidableRel r]
    [IsTotal α r] [IsTrans α r] (p : α → Bool) :
    ∀ l : List α, (l.insertionSort r).filter p = (l.filter p).insertionSort r
  | [] => rfl
  | c :: l => by
    rw [List.insertionSort,
      filter_orderedInsert r p c _ (List.sorted_insertionSort r l),
      filter_insertionSort r p l]
    by_cases hpc : p c = true
    · rw [if_pos hpc, List.filter_cons_of_pos hpc, List.insertionSort]
    · rw [if_neg hpc, List.filter_cons_of_neg (Bool.not_eq_true _ ▸ hpc)]

/-! ## Semantics of the generated keyword pattern

For a newline-free title (`.` does not step over newlines, so a title
containing one could defeat the `.*` inside the lookaheads), the
generated pattern `^(?=.*\bw1\b)…(?=.*\bwn\b).*` accepts exactly the
titles containing every token as a whole word, case-insensitively. -/

theorem noNL_of_not_mem {s : Str} (h : '\n' ∉ s) (i j : Nat) :
    noNL s i j = true := by
  unfold noNL
  rw [List.all_eq_true]
  intro c hc
  have hcs : c ∈ s := List.drop_subset _ _ (List.take_subset _ _ hc)
  simp only [decide_eq_true_eq]
  intro hcn
  exact h (hcn ▸ hcs)

theorem dotStar_ends {s : Str} (h : '\n' ∉ s) :
    REends s .dotStar 0 = List.range (s.length + 1) := by
  simp only [REends]
  apply List.filter_eq_self.mpr
  intro j _
  simp [noNL_of_not_mem h]

theorem REends_lits (s : Str) : ∀ (w : Str) (i : Nat),
    REends s (lits w) i = if ciMatchAt s w i then [i + w.length] else []
  | [], i => by simp [lits, REends, ciMatchAt]
  | c :: cs, i => by
    simp only [lits, REends]
    cases hg : s[i]? with
    | none => simp [ciMatchAt, hg]
    | some d =>
      by_cases he : c.toLower = d.toLower
      · show ((if c.toLower = d.toLower then [i + 1] else []).flatMap
            (REends s (lits cs))) = _
        rw [if_pos he]
        have hflat : ([i + 1] : List Nat).flatMap (REends s (lits cs)) =
            REends s (lits cs) (i + 1) := by
          simp
        rw [hflat, REends_lits s cs (i + 1)]
        have hl : i + 1 + cs.length = i + (c :: cs).length := by
          rw [List.length_cons]
          omega
        have hm : ciMatchAt s (c :: cs) i = ciMatchAt s cs (i + 1) := by
          simp [ciMatchAt, hg, he]
        rw [hl, hm]
      · simp [ciMatchAt, hg, he]

theorem REends_wordTail (s : Str) (w : Str) (p : Nat) :
    REends s (.seq .wordB (.seq (lits w) .wordB)) p =
      if wordBoundary s p && ciMatchAt s w p &&
          wordBoundary s (p + w.length) then [p + w.length] else [] := by
  simp only [REends, REends_lits]
  by_cases h1 : wordBoundary s p
  · by_cases h2 : ciMatchAt s w p = true
    · by_cases h3 : wordBoundary s (p + w.length) <;> simp [h1, h2, h3, REends]
    · simp [h1, h2]
  · simp [h1]

theorem lookBody_ne_nil {s : Str} (h : '\n' ∉ s) (w : Str) :
    (REends s (.seq .dotStar (.seq .wordB (.seq (lits w) .wordB))) 0 ≠ []) ↔
      containsWholeWordCI s w = true := by
  have hseq : REends s (.seq .dotStar (.seq .wordB (.seq (lits w) .wordB))) 0 =
      (REends s .dotStar 0).flatMap
        (REends s (.seq .wordB (.seq (lits w) .wordB))) := rfl
  rw [hseq, dotStar_ends h, containsWholeWordCI, List.any_eq_true]
  constructor
  · intro hne
    rcases List.exists_mem_of_ne_nil _ hne with ⟨q, hq⟩
    rcases List.mem_flatMap.mp hq with ⟨p, hp, hqp⟩
    refine ⟨p, hp, ?_⟩
    rw [REends_wordTail] at hqp
    by_contra hc
    rw [if_neg ?_] at hqp
    · exact List.not_mem_nil q hqp
    · exact fun hb => hc hb
  · rintro ⟨p, hp, hcond⟩
    intro hnil
    have : p + w.length ∈
        (List.range (s.length + 1)).flatMap
          (REends s (.seq .wordB (.seq (lits w) .wordB))) := by
      apply List.mem_flatMap.mpr
      refine ⟨p, hp, ?_⟩
      rw [REends_wordTail, if_pos hcond]
      exact List.mem_singleton.mpr rfl
    rw [hnil] at this
    exact List.not_mem_nil _ this

theorem reAccepts_eq_of_ends {r : RE} {s : Str} {l : List Nat}
    (h : REends s r 0 = l) : reAccepts r s = decide (l ≠ []) :=
  congrArg (fun l : List Nat => decide (l ≠ [])) h

theorem reAccepts_keywordRE {s : Str} (h : '\n' ∉ s) :
    ∀ ws : List Str, reAccepts (keywordRE ws) s = ws.all (containsWholeWordCI s)
  | [] => by
    have h0 : REends s (keywordRE []) 0 = List.range (s.length + 1) :=
      dotStar_ends h
    rw [reAccepts_eq_of_ends h0, List.all_nil]
    simp
  | w :: ws => by
    rw [List.all_cons]
    have hlook : REends s (keywordRE (w :: ws)) 0 =
        (if REends s
            (.seq .dotStar (.seq .wordB (.seq (lits w) .wordB))) 0 = []
          then ([] : List Nat) else [0]).flatMap (REends s (keywordRE ws)) :=
      rfl
    by_cases hb :
        REends s (.seq .dotStar (.seq .wordB (.seq (lits w) .wordB))) 0 = []
    · have hw : containsWholeWordCI s w = false := by
        rcases Bool.eq_false_or_eq_true (containsWholeWordCI s w) with ht | hf
        · exact absurd hb ((lookBody_ne_nil h w).mpr ht)
        · exact hf
      have hnil : REends s (keywordRE (w :: ws)) 0 = [] := by
        rw [hlook, if_pos hb]
        rfl
      rw [reAccepts_eq_of_ends hnil, hw]
      simp
    · have hw : containsWholeWordCI s w = true :=
        (lookBody_ne_nil h w).mp hb
      have hrest : REends s (keywordRE (w :: ws)) 0 =
          REends s (keywordRE ws) 0 := by
        rw [hlook, if_neg hb]
        simp
      rw [reAccepts_eq_of_ends hrest, hw, Bool.true_and,
        ← reAccepts_keywordRE h ws]
      rfl

/-! ## Helper lemmas about the queries -/

/-- Every query `getPage` builds keeps the standing
`num_seasons: {$gt: 0}` condition copied from `ShowController.query`. -/
theorem buildPageQuery_numSeasons (ps : PageParams) :
    (buildPageQuery ps).numSeasonsGt = some 0 := by
  unfold buildPageQuery
  cases ps.keywords <;> cases hg : ps.genre <;>
    simp only [showQuery] <;> split_ifs <;> rfl

/-- A document matching a query whose `num_seasons` condition is the
standing `$gt: 0` has a positive `num_seasons`. -/
theorem num_seasons_pos_of_matches {q : MongoQuery}
    (hq : q.numSeasonsGt = some 0) {e : ShowDoc}
    (h : matchesQuery q e = true) : 0 < e.num_seasons := by
  unfold matchesQuery at h
  rw [hq] at h
  have h1 := (Bool.and_eq_true _ _).mp h
  have h2 := (Bool.and_eq_true _ _).mp h1.1
  exact of_decide_eq_true h2.1

/-! ## The claims -/

/-- C1: entries with `num_seasons ≤ 0` are excluded by every query
`getPage` builds (first conjunct), do not contribute to the count
behind `getShows`'s page list (second conjunct: dropping them from the
store leaves `getShows` unchanged), and never appear in a `getPage`
result (third conjunct), while `getRandomShow` samples the whole store
without the standing invariant and can return such an entry (fourth
conjunct). -/
theorem c1_num_seasons_invariant :
    (∀ (ps : PageParams) (e : ShowDoc), e.num_seasons ≤ 0 →
      matchesQuery (buildPageQuery ps) e = false) ∧
    (∀ (docs : List ShowDoc) (p : Nat),
      getShows (.ok docs) p =
        getShows (.ok (docs.filter fun e => decide (0 < e.num_seasons))) p) ∧
    (∀ (docs : List ShowDoc) (s : Str) (ps : PageParams) (p : Nat)
      (out : List ProjDoc), getPage (.ok docs) s ps p = .json out →
      ∀ x ∈ out, ∃ d ∈ docs, x = projectDoc d ∧ 0 < d.num_seasons) ∧
    (∃ (e : ShowDoc) (pick : Nat), e.num_seasons ≤ 0 ∧
      getRandomShow (.ok [e]) pick = .json (some e)) := by
  refine ⟨?_, ?_, ?_, ⟨egZero, 0, by decide, by decide⟩⟩
  · intro ps e he
    cases hm : matchesQuery (buildPageQuery ps) e with
    | false => rfl
    | true =>
      have := num_seasons_pos_of_matches (buildPageQuery_numSeasons ps) hm
      omega
  · intro docs p
    simp only [getShows]
    have hc : docs.filter (matchesQuery showQuery) =
        (docs.filter fun e => decide (0 < e.num_seasons)).filter
          (matchesQuery showQuery) := by
      rw [List.filter_filter]
      apply List.filter_congr
      intro e _
      cases hm : matchesQuery showQuery e with
      | false => simp
      | true =>
        have := num_seasons_pos_of_matches (show showQuery.numSeasonsGt =
          some 0 from rfl) hm
        simp [this]
    rw [← hc]
  · intro docs s ps p out hout x hx
    by_cases hall : jsTest "all" s = true
    · have : allMode docs = out := by
        simp only [getPage, hall, if_true, if_pos] at hout
        exact (Outcome.json.injEq _ _).mp hout
      rw [← this] at hx
      unfold allMode at hx
      rw [List.mem_insertionSort] at hx
      rcases List.mem_map.mp hx with ⟨d, hd, hdx⟩
      rcases List.mem_filter.mp hd with ⟨hdm, hdq⟩
      exact ⟨d, hdm, hdx.symm,
        num_seasons_pos_of_matches rfl hdq⟩
    · have hcond : ¬ (jsTest "all" s = true) := hall
      rcases hp : parseDigits s with _ | i
      · simp only [getPage, if_neg hcond, hp] at hout
        exact (Outcome.noConfusion hout)
      · simp only [getPage, if_neg hcond, hp] at hout
        by_cases hoff : ((i : Int) - 1) * p < 0
        · rw [if_pos hoff] at hout
          exact absurd hout (by simp)
        · rw [if_neg hoff] at hout
          have : numericMode docs ps p (((i : Int) - 1) * p).toNat = out :=
            (Outcome.json.injEq _ _).mp hout
          rw [← this] at hx
          simp only [numericMode] at hx
          have hx1 := List.mem_of_mem_take hx
          have hx2 := List.mem_of_mem_drop hx1
          rcases List.mem_map.mp hx2 with ⟨d, hd, hdx⟩
          rcases List.mem_filter.mp hd with ⟨hdm, hdq⟩
          rw [List.mem_insertionSort] at hdm
          exact ⟨d, hdm, hdx.symm,
            num_seasons_pos_of_matches (buildPageQuery_numSeasons ps) hdq⟩

/-- Witness for C1: concrete instances of its three quantified
conjuncts. -/
theorem c1_witness :
    matchesQuery (buildPageQuery egParams) egZero = false ∧
    getShows (.ok [egZero, egShow]) 1 =
      getShows (.ok ([egZero, egShow].filter fun e =>
        decide (0 < e.num_seasons))) 1 ∧
    (∃ d ∈ [egZero, egShow], projectDoc egShow = projectDoc d ∧
      0 < d.num_seasons) := by
  refine ⟨c1_num_seasons_invariant.1 egParams egZero (by decide),
    c1_num_seasons_invariant.2.1 [egZero, egShow] 1,
    c1_num_seasons_invariant.2.2.1 [egZero, egShow] "1".toList egParams 1
      [projectDoc egShow] (by decide) (projectDoc egShow) (by decide)⟩

/-- C2: for a numeric page parameter denoting an index `i ≥ 1`, any
filter set and any sort selector, `getPage` returns exactly the
pipeline in the specification's order — filter, sort, skip
`(i-1)*pageSize`, limit `pageSize`, then project to the catalog-facing
fields (`specPagePipeline`).  The code runs `$sort` before `$match`
and `$project` before `$skip`/`$limit`; the two orders agree because
the modelled sort is stable and deterministic. -/
theorem c2_numeric_page_pipeline (docs : List ShowDoc) (ps : PageParams)
    (p : Nat) (s : Str) (i : Nat) (hall : jsTest "all" s = false)
    (hparse : parseDigits s = some i) (hi : 1 ≤ i) :
    getPage (.ok docs) s ps p = .json (specPagePipeline docs ps p i) := by
  have hcond : ¬ (jsTest "all" s = true) := by simp [hall]
  have hcast : ((i : Int) - 1) * (p : Int) = (((i - 1) * p : Nat) : Int) := by
    have h1 : ((i : Int) - 1) = ((i - 1 : Nat) : Int) := by omega
    rw [h1, ← Nat.cast_mul]
  have hneg : ¬ (((i : Int) - 1) * (p : Int) < 0) := by
    rw [hcast]
    exact not_lt.mpr (Int.natCast_nonneg _)
  simp only [getPage, if_neg hcond, hparse]
  rw [if_neg hneg, hcast, Int.toNat_natCast]
  have hpipe : numericMode docs ps p ((i - 1) * p) =
      specPagePipeline docs ps p i := by
    simp only [numericMode, specPagePipeline]
    rw [filter_insertionSort
      (sortRel (buildSort ps.sortField (effOrder ps.order)))
      (matchesQuery (buildPageQuery ps)) docs,
      ← List.map_drop, ← List.map_take]
  rw [hpipe]

/-- Witness for C2 at concrete inputs. -/
theorem c2_witness :
    jsTest "all" "2".toList = false ∧
    parseDigits "2".toList = some 2 ∧
    getPage (.ok [egZero, egShow]) "2".toList egParams 1 =
      .json (specPagePipeline [egZero, egShow] egParams 1 2) :=
  ⟨by decide, by decide,
    c2_numeric_page_pipeline [egZero, egShow] egParams 1 "2".toList 2
      (by decide) (by decide) (by decide)⟩

/-- C3 counterexample: the page parameter `"wall"` is not the literal
`"all"` sentinel (even case-insensitively), yet it sends `getPage`
into full-listing mode: with a genre filter the sample show does not
satisfy, a numeric page returns nothing, but `"wall"` returns the full
listing, bypassing the filter. -/
theorem c3_counterexample :
    ("wall".toList.map Char.toLower ≠ "all".toList) ∧
    getPage (.ok [egShow]) "wall".toList egComedy 1 =
      .json [projectDoc egShow] ∧
    getPage (.ok [egShow]) "1".toList egComedy 1 = .json [] := by
  refine ⟨by decide, by decide, by decide⟩

/-- C3 (amended): `getPage` enters full-listing mode whenever the page
parameter contains `"all"` as a case-insensitive substring (the code
tests `req.params.page.match(/all/i)`, not equality with the literal
sentinel); in that mode it returns exactly the entries satisfying the
standing `num_seasons > 0` invariant, sorted by title descending, and
the result is independent of the caller's keyword/genre/sort
parameters. -/
theorem c3_all_mode (docs : List ShowDoc) (s : Str) (ps ps' : PageParams)
    (p p' : Nat) (h : jsTest "all" s = true) :
    ∃ r, getPage (.ok docs) s ps p = .json r ∧
      r.Perm ((docs.filter (matchesQuery showQuery)).map projectDoc) ∧
      r.Sorted titleDescRel ∧
      getPage (.ok docs) s ps p = getPage (.ok docs) s ps' p' := by
  refine ⟨allMode docs, ?_, ?_, ?_, ?_⟩
  · simp [getPage, h]
  · exact List.perm_insertionSort titleDescRel _
  · exact List.sorted_insertionSort titleDescRel _
  · simp [getPage, h]

/-- Witness for C3 (amended) at concrete inputs. -/
theorem c3_witness :
    jsTest "all" "ALL".toList = true ∧
    ∃ r, getPage (.ok [egShow, egZero]) "ALL".toList egComedy 3 = .json r ∧
      r.Perm (([egShow, egZero].filter
        (matchesQuery showQuery)).map projectDoc) ∧
      r.Sorted titleDescRel ∧
      getPage (.ok [egShow, egZero]) "ALL".toList egComedy 3 =
        getPage (.ok [egShow, egZero]) "ALL".toList egParams 1 :=
  ⟨by decide, c3_all_mode [egShow, egZero] "ALL".toList egComedy egParams
    3 1 (by decide)⟩

/-- C4: for every keyword input, the generated title constraint
(tokenise on spaces, sanitise each token to alphanumerics, lower-case,
then require each token via an independent lookahead) accepts a
newline-free title exactly when the title contains every sanitised
token as a whole word, case-insensitively — in particular regardless
of the order in which the tokens occur in the title. -/
theorem c4_keyword_whole_words (kw t : Str) (h : '\n' ∉ t) :
    reAccepts (keywordRE (keywordWords kw)) t = true ↔
      ∀ w ∈ keywordWords kw, containsWholeWordCI t w = true := by
  rw [reAccepts_keywordRE h (keywordWords kw)]
  exact List.all_eq_true

/-- Witness for C4: the pattern for `"Foo bar!"` accepts a title
containing both words, in the other order. -/
theorem c4_witness :
    reAccepts (keywordRE (keywordWords "Foo bar!".toList))
      "the Bar of foo".toList = true :=
  (c4_keyword_whole_words "Foo bar!".toList "the Bar of foo".toList
    (by decide)).mpr (by decide)

/-- C5: `getShows` yields the ordered identifiers
`"shows/1" … "shows/⌈count/pageSize⌉"`: the `k`-th identifier (from 0)
names page `k+1`, and the number of identifiers is exactly the
ceiling `⌈count/pageSize⌉`, characterised as the least `m` with
`count ≤ m * pageSize`. -/
theorem c5_list_pages (docs : List ShowDoc) (p : Nat) (hp : 0 < p) :
    ∃ ids, getShows (.ok docs) p = .json ids ∧
      (∀ m : Nat, ids.length ≤ m ↔
        (docs.filter (matchesQuery showQuery)).length ≤ m * p) ∧
      ∀ (k : Nat) (hk : k < ids.length),
        ids.get ⟨k, hk⟩ = "shows/" ++ toString (k + 1) := by
  refine ⟨_, rfl, ?_, ?_⟩
  · intro m
    rw [List.length_map, List.length_range]
    have hrw : (m + 1) * p = m * p + p := by ring
    constructor
    · intro h
      by_contra hcon
      push_neg at hcon
      have h2 : (m + 1) ≤ ((docs.filter (matchesQuery showQuery)).length
          + p - 1) / p :=
        (Nat.le_div_iff_mul_le hp).mpr (by omega)
      omega
    · intro h
      by_contra hcon
      push_neg at hcon
      have h2 := (Nat.le_div_iff_mul_le hp).mp (by omega : m + 1 ≤
        ((docs.filter (matchesQuery showQuery)).length + p - 1) / p)
      omega
  · intro k hk
    simp [List.get_eq_getElem]

/-- Witness for C5 at a concrete store and page size. -/
theorem c5_witness :
    ∃ ids, getShows (.ok [egZero, egShow, egShow]) 1 = .json ids ∧
      (∀ m : Nat, ids.length ≤ m ↔
        ([egZero, egShow, egShow].filter
          (matchesQuery showQuery)).length ≤ m * 1) ∧
      ∀ (k : Nat) (hk : k < ids.length),
        ids.get ⟨k, hk⟩ = "shows/" ++ toString (k + 1) :=
  c5_list_pages [egZero, egShow, egShow] 1 (by decide)

/-- C6: the `$sort` selector defaults to the rating triple in the
requested direction; the `sort` request parameter overrides it with
`name`→title, `rating`→(percentage, votes), `trending`→watching,
`updated`→latest_episode, `year`→year; the direction is a signed
integer defaulting to `-1` (descending). -/
theorem c6_sort_selection :
    (∀ d : Int, buildSort none d =
      [(SortField.ratingVotes, d), (SortField.ratingPercentage, d),
        (SortField.ratingWatching, d)]) ∧
    (∀ d : Int, buildSort (some "name".toList) d = [(SortField.title, d)]) ∧
    (∀ d : Int, buildSort (some "rating".toList) d =
      [(SortField.ratingPercentage, d), (SortField.ratingVotes, d)]) ∧
    (∀ d : Int, buildSort (some "trending".toList) d =
      [(SortField.ratingWatching, d)]) ∧
    (∀ d : Int, buildSort (some "updated".toList) d =
      [(SortField.latestEpisode, d)]) ∧
    (∀ d : Int, buildSort (some "year".toList) d = [(SortField.year, d)]) ∧
    effOrder none = -1 :=
  ⟨fun _ => rfl, fun _ => rfl, fun _ => rfl, fun _ => rfl, fun _ => rfl,
    fun _ => rfl, rfl⟩

/-- C7 counterexample: the genre value `"ballet"` is not the literal
`"all"` (even case-insensitively, and lower-casing leaves it
unchanged), yet it disables genre filtering entirely — the built query
carries no genre constraint, and a numeric page returns the sample
show although its genre tags do not contain `"ballet"` — where the
claim requires `"ballet"` to be matched exactly against the tags. -/
theorem c7_counterexample :
    ("ballet".toList.map Char.toLower ≠ "all".toList) ∧
    (buildPageQuery egBallet).genresVal = none ∧
    egShow.genres.contains "ballet".toList = false ∧
    getPage (.ok [egShow]) "1".toList egBallet 1 =
      .json [projectDoc egShow] :=
  ⟨by decide, by decide, by decide, by decide⟩

/-- C7 (amended): a genre value containing `"all"` as a
case-insensitive substring disables genre filtering (the code tests
`genre.match(/all/i)`); otherwise a value containing a spelling
variant of science fiction / sci-fi (as a substring, `sci`/`science`
joined to `fi`/`fiction` by a hyphen or whitespace, case-insensitive)
is canonicalised to the single tag `science-fiction`; every other
value is lower-cased, and the resulting constraint matches a document
exactly when its genre tags contain the value. -/
theorem c7_genre_filter (g : Str) :
    (jsTest "all" g = true →
      (buildPageQuery { genre := some g }).genresVal = none) ∧
    (jsTest "all" g = false →
      (containsToks sciFiLong g || containsToks sciFiShort g) = true →
      (buildPageQuery { genre := some g }).genresVal =
        some "science-fiction".toList) ∧
    (jsTest "all" g = false →
      (containsToks sciFiLong g || containsToks sciFiShort g) = false →
      (buildPageQuery { genre := some g }).genresVal =
        some (g.map Char.toLower)) ∧
    (∀ (v : Str) (e : ShowDoc),
      matchesQuery ⟨none, none, some v⟩ e = e.genres.contains v) := by
  refine ⟨?_, ?_, ?_, ?_⟩
  · intro h
    simp [buildPageQuery, h, showQuery]
  · intro h1 h2
    simp only [buildPageQuery, h1, h2, Bool.false_eq_true, if_false, if_true]
    decide
  · intro h1 h2
    simp [buildPageQuery, h1, h2]
  · intro v e
    simp [matchesQuery]

/-- Witness for C7: the spec's own scenario, genre `"Sci Fi"`, is
canonicalised to `science-fiction`. -/
theorem c7_witness :
    jsTest "all" "Sci Fi".toList = false ∧
    (buildPageQuery { genre := some "Sci Fi".toList }).genresVal =
      some "science-fiction".toList :=
  ⟨by decide, (c7_genre_filter "Sci Fi".toList).2.1 (by decide) (by decide)⟩

/-- C8: `getShow` returns the matching document with `latest_episode`
excluded (the projection `projectDoc` keeps every other field), and an
absent id produces the empty result `null` rather than an error. -/
theorem c8_get_one (docs : List ShowDoc) (i : String) :
    ((∀ d ∈ docs, d._id ≠ i) → getShow (.ok docs) i = .json none) ∧
    (∀ e, e ∈ docs → e._id = i → (∀ d ∈ docs, d._id = i → d = e) →
      getShow (.ok docs) i = .json (some (projectDoc e))) := by
  constructor
  · intro hno
    have hf : docs.find? (fun d => d._id = i) = none := by
      apply List.find?_eq_none.mpr
      intro x hx
      simp [hno x hx]
    simp [getShow, hf]
  · intro e he hei huniq
    rcases hfind : docs.find? (fun d => d._id = i) with _ | d
    · exfalso
      have := List.find?_eq_none.mp hfind e he
      simp [hei] at this
    · have hdm : d ∈ docs := List.mem_of_find?_eq_some hfind
      have hdi : d._id = i := by
        have := List.find?_some hfind
        simpa using this
      simp [getShow, hfind, huniq d hdm hdi]

/-- Witness for C8 at a concrete store. -/
theorem c8_witness :
    getShow (.ok [egShow]) "zzz" = .json none ∧
    getShow (.ok [egShow]) "1" = .json (some (projectDoc egShow)) :=
  ⟨(c8_get_one [egShow] "zzz").1 (by decide),
    (c8_get_one [egShow] "1").2 egShow (by decide) (by decide) (by decide)⟩

/-- C9: behaviour on a failed store operation.  Every handler except
the numeric-page branch of `getPage` forwards the error through
`next(err)`; the numeric-page branch's catch handler calls the
nonexistent `res.jfson`, so the handler itself crashes with a
`TypeError` instead of surfacing the failure through the
error-propagation path. -/
theorem c9_store_failure :
    getPage (.error "store unreachable") "1".toList egParams 50 =
      .methodCrash "jfson" ∧
    getPage (.error "store unreachable") "all".toList egParams 50 =
      .nextErr "store unreachable" ∧
    getShows (.error "store unreachable") 50 = .nextErr "store unreachable" ∧
    getShow (.error "store unreachable") "1" =
      .nextErr "store unreachable" ∧
    getRandomShow (.error "store unreachable") 0 =
      .nextErr "store unreachable" :=
  ⟨by decide, by decide, rfl, rfl, rfl⟩

/-- C10: on an empty store `getRandomShow` completes normally,
serialising the `undefined` first element of the empty sample as an
empty result, for every value of the sampling oracle. -/
theorem c10_random_empty (pick : Nat) :
    getRandomShow (.ok []) pick = .json none := rfl

end Popcorn
